import Mathlib

/-!
Verification development for the gofpdf PDF toolkit core.

The definitions below are a shallow embedding of the Go source under
`reader/` and `form/`: bytes are natural numbers below 256, Go slices
become `List Nat`, Go maps become lookup functions or association lists,
and fallible functions return `Except` or `Option`.  Functions from the
Go standard library that the source calls (zlib, regexp matching inside
`form`) are abstracted as explicit function parameters where noted; all
repository logic is translated directly.
-/

set_option maxHeartbeats 1000000

namespace GofpdfSpec

/-! ## Cross-reference tables (`reader/xref.go`)

A classical xref section is modelled by the list of `(objectNumber, entry)`
pairs read from its subsections, in reading order.  `sectionTable` mirrors
the first-definition-wins insertion of `parseXRefTable` (xref.go lines
110-118), and `parseXRefChain` mirrors the recursive `/Prev` merge
(xref.go lines 133-145): the chain `S0 … Sn` is given most-recent first,
exactly the order in which the Go recursion visits the sections. -/

/-- Entry of the cross-reference table: byte offset, generation, in-use flag
(`xrefEntry` in xref.go). -/
structure XrefEntry where
  offset : Int
  gen : Int
  inUse : Bool
deriving DecidableEq, Repr

/-- Table mapping object numbers to entries (`xrefTable` in xref.go; the
Go key type is `int`). -/
abbrev XrefTable := Int → Option XrefEntry

/-- Insertion guarded by `if _, exists := table[objNum]; !exists` in
`parseXRefTable`: an entry already present is kept. -/
def xrefInsertIfAbsent (t : XrefTable) (n : Int) (e : XrefEntry) : XrefTable :=
  match t n with
  | some _ => t
  | none => fun m => if m = n then some e else t m

/-- Table built from one section's entries in reading order, first
definition winning (xref.go lines 92-119). -/
def sectionTable (raw : List (Int × XrefEntry)) : XrefTable :=
  raw.foldl (fun t p => xrefInsertIfAbsent t p.1 p.2) (fun _ => none)

/-- Merge of the current table with the table of the `/Prev` section:
current entries take precedence (xref.go lines 139-144). -/
def mergePrev (table prevTable : XrefTable) : XrefTable :=
  fun n =>
    match table n with
    | some e => some e
    | none => prevTable n

/-- Merged table of a whole `/Prev` chain, most recent section first,
following the recursion of `parseXRefTable` (xref.go lines 133-148). -/
def parseXRefChain : List (List (Int × XrefEntry)) → XrefTable
  | [] => fun _ => none
  | raw :: prevs => mergePrev (sectionTable raw) (parseXRefChain prevs)

/-- C1: for a `/Prev` chain `S0 … Sn` (most recent first), the merged xref
table maps each object number to its entry from the smallest-index section
containing that number, and to nothing when no section contains it. -/
theorem parseXRefChain_first_section (sections : List (List (Int × XrefEntry))) (n : Int) :
    parseXRefChain sections n =
      (sections.find? (fun raw => (sectionTable raw n).isSome)).bind
        (fun raw => sectionTable raw n) := by
  induction sections with
  | nil => rfl
  | cons raw prevs ih =>
    simp only [parseXRefChain, mergePrev]
    cases h : sectionTable raw n with
    | some e =>
      rw [List.find?_cons_of_pos _ (by simp [h])]
      simp [h]
    | none =>
      rw [List.find?_cons_of_neg _ (by simp [h])]
      simpa [h] using ih

/-! ## PDF object model (`reader/objects.go`)

Names and strings are byte sequences (`Name` and `String.Value` in Go);
dictionaries are association lists in which the most recently inserted
binding shadows older ones, matching Go map assignment together with the
lookup helpers below.  `Real` carries the parsed numeric value as a
rational; IEEE-754 rounding is not modelled (no claim depends on it). -/

/-- Tagged union of PDF objects (`Object` and its variants in objects.go). -/
inductive Obj where
  | null
  | bool (b : Bool)
  | int (n : Int)
  | real (q : Rat)
  | name (s : List Nat)
  | str (value : List Nat) (isHex : Bool)
  | arr (xs : List Obj)
  | dict (entries : List (List Nat × Obj))
  | stream (entries : List (List Nat × Obj)) (payload : List Nat)
  | ref (number gen : Int)

/-- Parse-error kinds; the Go code formats messages, which the claims never
inspect, so only the kind is carried. -/
inductive PErr where
  | unexpectedEof
  | unexpectedChar
  | invalidNumber
  | unterminated
  | invalidHexChar
  | expectedKeyword
  | expectedName
  | streamBounds
  | offsetOutOfBounds
  | unsupportedFilter
  | noFormFields
  | fieldNotFound
  | fuelExhausted
deriving DecidableEq, Repr

/-- Lookup in a dictionary association list: the most recent binding wins. -/
def dictGet (d : List (List Nat × Obj)) (k : List Nat) : Option Obj :=
  (d.find? (fun p => p.1 == k)).map (fun p => p.2)

/-- Truncation toward zero, the behaviour of Go's `int64(float64)` cast. -/
def ratTruncToInt (q : Rat) : Int := if 0 ≤ q then ⌊q⌋ else ⌈q⌉

/-- Dict.GetInt from objects.go: integers directly, reals truncated. -/
def dictGetInt (d : List (List Nat × Obj)) (k : List Nat) : Option Int :=
  match dictGet d k with
  | some (Obj.int n) => some n
  | some (Obj.real q) => some (ratTruncToInt q)
  | _ => none

/-- Dict.GetName from objects.go: empty bytes when absent or not a name. -/
def dictGetName (d : List (List Nat × Obj)) (k : List Nat) : List Nat :=
  match dictGet d k with
  | some (Obj.name s) => s
  | _ => []

/-- Dict.GetArray from objects.go: `none` plays the role of Go's nil. -/
def dictGetArray (d : List (List Nat × Obj)) (k : List Nat) : Option (List Obj) :=
  match dictGet d k with
  | some (Obj.arr xs) => some xs
  | _ => none

/-- Dict.GetDict from objects.go. -/
def dictGetDict (d : List (List Nat × Obj)) (k : List Nat) :
    Option (List (List Nat × Obj)) :=
  match dictGet d k with
  | some (Obj.dict sub) => some sub
  | _ => none

/-! ## Lexer (`part_010`, the `parser` type)

The Go parser keeps `(data, pos)`; the embedding passes the unread suffix
of the byte list instead, which is equivalent because the reader never
moves the cursor before a previously saved position.  "The cursor is at
position `p`" translates to "the suffix has length `data.length - p`". -/

/-- Whitespace test from part_010 (`isWhitespace`): space, tab, LF, CR, FF, NUL. -/
def isWhitespaceB (b : Nat) : Bool :=
  b == 32 || b == 9 || b == 10 || b == 13 || b == 12 || b == 0

/-- Delimiter test from part_010 (`isDelimiter`). -/
def isDelimiterB (b : Nat) : Bool :=
  b == 40 || b == 41 || b == 60 || b == 62 || b == 91 || b == 93 ||
  b == 123 || b == 125 || b == 47 || b == 37

/-- Regular byte test from part_010 (`isRegular`). -/
def isRegularB (b : Nat) : Bool := !isWhitespaceB b && !isDelimiterB b

/-- ASCII decimal digit test. -/
def isDigitB (b : Nat) : Bool := 48 ≤ b && b ≤ 57

mutual

/-- skipWhitespace from part_010: whitespace and `%` comments.  The Go loop
leaves the terminating LF or CR of a comment in place and the next loop
iteration consumes it as whitespace; `skipComment` fuses those two steps so
that the recursion is structural. -/
def skipWs : List Nat → List Nat
  | [] => []
  | b :: rest =>
    if isWhitespaceB b then skipWs rest
    else if b == 37 then skipComment rest
    else b :: rest

/-- Comment body skipping inside `skipWhitespace`: drop bytes up to the
line end, consume the LF or CR as whitespace, continue skipping. -/
def skipComment : List Nat → List Nat
  | [] => []
  | b :: rest => if b == 10 || b == 13 then skipWs rest else skipComment rest

end

/-- readToken from part_010: skip whitespace, then the maximal regular run.
Returns the token and the suffix after it. -/
def readToken (l : List Nat) : List Nat × List Nat :=
  let r := skipWs l
  (r.takeWhile isRegularB, r.dropWhile isRegularB)

/-- Numeric value of a digit string, most significant digit first. -/
def natOfDigits (l : List Nat) : Nat := l.foldl (fun acc b => acc * 10 + (b - 48)) 0

def int64Min : Int := -(2 ^ 63)

def int64Max : Int := 2 ^ 63 - 1

/-- Model of `strconv.ParseInt(tok, 10, 64)`: optional single sign, a
nonempty run of decimal digits, and the value within the int64 range. -/
def goParseInt (tok : List Nat) : Option Int :=
  let sd : Int × List Nat :=
    match tok with
    | [] => (1, [])
    | b :: rest =>
      if b == 43 then (1, rest)
      else if b == 45 then (-1, rest)
      else (1, b :: rest)
  if sd.2.isEmpty || !sd.2.all isDigitB then none
  else
    let v : Int := sd.1 * (natOfDigits sd.2 : Int)
    if v < int64Min || int64Max < v then none else some v

/-- Largest finite float64 value, used for the range check of ParseFloat. -/
def maxFloat64 : Rat := ((2 ^ 53 - 1 : Nat) : Rat) * (2 : Rat) ^ (971 : Nat)

/-- Model of `strconv.ParseFloat(tok, 64)` for decimal forms: optional sign,
digits with optional fraction, optional decimal exponent, rejecting values
beyond the finite float64 range.  IEEE rounding, hexadecimal floats and the
inf/nan spellings are not modelled; no theorem below depends on the value
this returns, only the reference/integer paths of `parseNumberOrRef` do. -/
def goParseFloat (tok : List Nat) : Option Rat :=
  let sd : Rat × List Nat :=
    match tok with
    | [] => (1, [])
    | b :: rest =>
      if b == 43 then (1, rest)
      else if b == 45 then (-1, rest)
      else (1, b :: rest)
  let ip := sd.2.takeWhile isDigitB
  let t2 := sd.2.dropWhile isDigitB
  let fr : List Nat × List Nat :=
    match t2 with
    | 46 :: rest => (rest.takeWhile isDigitB, rest.dropWhile isDigitB)
    | rest => ([], rest)
  if ip.isEmpty && fr.1.isEmpty then none
  else
    let mant : Rat := (natOfDigits ip : Rat) + (natOfDigits fr.1 : Rat) / (10 : Rat) ^ fr.1.length
    match fr.2 with
    | [] =>
      let v := sd.1 * mant
      if v < -maxFloat64 || maxFloat64 < v then none else some v
    | e :: rest =>
      if e == 101 || e == 69 then
        let es : Bool × List Nat :=
          match rest with
          | 43 :: r2 => (true, r2)
          | 45 :: r2 => (false, r2)
          | r2 => (true, r2)
        let ed := es.2.takeWhile isDigitB
        if ed.isEmpty || !(es.2.dropWhile isDigitB).isEmpty then none
        else
          let scale : Rat := if es.1 then (10 : Rat) ^ natOfDigits ed else 1 / (10 : Rat) ^ natOfDigits ed
          let v := sd.1 * mant * scale
          if v < -maxFloat64 || maxFloat64 < v then none else some v
      else none

/-- parseNumberOrRef from part_010 lines 192-226: a number, or an indirect
reference `N G R` recognised by two-token look-ahead with cursor restore. -/
def parseNumberOrRef (s : List Nat) : Except PErr (Obj × List Nat) :=
  let tk := readToken s
  match goParseInt tk.1 with
  | some intVal =>
    let r2 := skipWs tk.2
    match r2 with
    | c :: _ =>
      if isDigitB c then
        let tk2 := readToken r2
        match goParseInt tk2.1 with
        | some genVal =>
          (match skipWs tk2.2 with
          | c2 :: r5 =>
            if c2 == 82 then .ok (Obj.ref intVal genVal, r5)
            else .ok (Obj.int intVal, tk.2)
          | [] => .ok (Obj.int intVal, tk.2))
        | none => .ok (Obj.int intVal, tk.2)
      else .ok (Obj.int intVal, tk.2)
    | [] => .ok (Obj.int intVal, tk.2)
  | none =>
    match goParseFloat tk.1 with
    | some q => .ok (Obj.real q, tk.2)
    | none => .error PErr.invalidNumber

/-- unhex from part_010: value of a hex digit. -/
def unhexB (b : Nat) : Option Nat :=
  if 48 ≤ b && b ≤ 57 then some (b - 48)
  else if 97 ≤ b && b ≤ 102 then some (b - 97 + 10)
  else if 65 ≤ b && b ≤ 70 then some (b - 65 + 10)
  else none

/-- Body loop of parseName: regular bytes with `#XX` decoding in place.  The
Go bound `p.pos+2 < len(p.data)` says exactly that two bytes follow the hash.
The loop consumes at least one byte per step, so the fuel passed by
`parseName` (length plus one) is never exhausted. -/
def parseNameCore (fuel : Nat) (l : List Nat) (acc : List Nat) : List Nat × List Nat :=
  match fuel with
  | 0 => (acc.reverse, l)
  | fuel + 1 =>
    match l with
    | [] => (acc.reverse, [])
    | b :: rest =>
      if isWhitespaceB b || isDelimiterB b then (acc.reverse, b :: rest)
      else if b == 35 then
        match rest with
        | h1 :: h2 :: rest2 =>
          (match unhexB h1, unhexB h2 with
          | some hi, some lo => parseNameCore fuel rest2 ((hi * 16 + lo) :: acc)
          | _, _ => parseNameCore fuel rest (b :: acc))
        | _ => parseNameCore fuel rest (b :: acc)
      else parseNameCore fuel rest (b :: acc)

/-- parseName from part_010: a leading slash then the decoded name bytes. -/
def parseName (s : List Nat) : Except PErr (List Nat × List Nat) :=
  match s with
  | 47 :: rest => .ok (parseNameCore (rest.length + 1) rest [])
  | _ => .error PErr.expectedName

/-- Remaining octal digits of an octal escape whose first digit is `esc`:
the Go inner loop takes up to two further digits; the three-digit value is
truncated to a byte exactly as Go's `byte(oct)` cast does. -/
def octTail (esc : Nat) (rest2 : List Nat) : Nat × List Nat :=
  match rest2 with
  | d1 :: rest3 =>
    if 48 ≤ d1 && d1 ≤ 55 then
      (match rest3 with
      | d2 :: rest4 =>
        if 48 ≤ d2 && d2 ≤ 55 then
          ((((esc - 48) * 8 + (d1 - 48)) * 8 + (d2 - 48)) % 256, rest4)
        else ((esc - 48) * 8 + (d1 - 48), rest3)
      | [] => ((esc - 48) * 8 + (d1 - 48), rest3))
    else (esc - 48, rest2)
  | [] => (esc - 48, rest2)

/-- Body loop of parseLiteralString: balanced parentheses, backslash
escapes, octal escapes.  Each step consumes at least one byte, so the fuel
passed by `parseLiteralString` (length plus one) is never exhausted. -/
def parseLitLoop (fuel : Nat) (l : List Nat) (depth : Nat) (acc : List Nat) :
    Except PErr (List Nat × List Nat) :=
  match fuel with
  | 0 => .error PErr.fuelExhausted
  | fuel + 1 =>
    match l with
    | [] => .error PErr.unterminated
    | b :: rest =>
      if b == 40 then parseLitLoop fuel rest (depth + 1) (40 :: acc)
      else if b == 41 then
        (if depth == 1 then .ok (acc.reverse, rest)
         else parseLitLoop fuel rest (depth - 1) (41 :: acc))
      else if b == 92 then
        (match rest with
        | [] => .error PErr.unterminated
        | esc :: rest2 =>
          if esc == 110 then parseLitLoop fuel rest2 depth (10 :: acc)
          else if esc == 114 then parseLitLoop fuel rest2 depth (13 :: acc)
          else if esc == 116 then parseLitLoop fuel rest2 depth (9 :: acc)
          else if esc == 98 then parseLitLoop fuel rest2 depth (8 :: acc)
          else if esc == 102 then parseLitLoop fuel rest2 depth (12 :: acc)
          else if esc == 40 || esc == 41 || esc == 92 then
            parseLitLoop fuel rest2 depth (esc :: acc)
          else if 48 ≤ esc && esc ≤ 55 then
            parseLitLoop fuel (octTail esc rest2).2 depth ((octTail esc rest2).1 :: acc)
          else parseLitLoop fuel rest2 depth (esc :: acc))
      else parseLitLoop fuel rest depth (b :: acc)

/-- parseLiteralString from part_010 (without the optional cipher, which
only rewrites the returned bytes in the encrypted case). -/
def parseLiteralString (s : List Nat) : Except PErr (Obj × List Nat) :=
  match s with
  | 40 :: rest =>
    match parseLitLoop (rest.length + 1) rest 1 [] with
    | .ok (v, r) => .ok (Obj.str v false, r)
    | .error e => .error e
  | _ => .error PErr.unexpectedChar

/-- Body loop of parseHexString: hex nibbles up to `>`, whitespace skipped,
an odd trailing nibble becoming the high half of a final byte. -/
def parseHexLoop (l : List Nat) (hi : Option Nat) (acc : List Nat) :
    Except PErr (List Nat × List Nat) :=
  match l with
  | [] => .error PErr.unterminated
  | b :: rest =>
    if b == 62 then
      match hi with
      | some h => .ok (acc.reverse ++ [h * 16], rest)
      | none => .ok (acc.reverse, rest)
    else if isWhitespaceB b then parseHexLoop rest hi acc
    else
      match unhexB b with
      | none => .error PErr.invalidHexChar
      | some v =>
        match hi with
        | none => parseHexLoop rest (some v) acc
        | some h => parseHexLoop rest none ((h * 16 + v) :: acc)

/-- parseHexString from part_010 (cipherless, as for literal strings). -/
def parseHexString (s : List Nat) : Except PErr (Obj × List Nat) :=
  match s with
  | 60 :: rest =>
    match parseHexLoop rest none [] with
    | .ok (v, r) => .ok (Obj.str v true, r)
    | .error e => .error e
  | _ => .error PErr.unexpectedChar

/-- Nat spelling of the keyword `true`. -/
def kwTrue : List Nat := [116, 114, 117, 101]

/-- Nat spelling of the keyword `false`. -/
def kwFalse : List Nat := [102, 97, 108, 115, 101]

/-- Nat spelling of the keyword `null`. -/
def kwNull : List Nat := [110, 117, 108, 108]

/-- Nat spelling of the keyword `obj`. -/
def kwObj : List Nat := [111, 98, 106]

/-- Nat spelling of the keyword `stream`. -/
def kwStream : List Nat := [115, 116, 114, 101, 97, 109]

/-- Nat spelling of the keyword `endstream`. -/
def kwEndstream : List Nat := [101, 110, 100, 115, 116, 114, 101, 97, 109]

/-- Nat spelling of the keyword `endobj`. -/
def kwEndobj : List Nat := [101, 110, 100, 111, 98, 106]

/-- Nat spelling of the name `Length`. -/
def kwLength : List Nat := [76, 101, 110, 103, 116, 104]

/-- parseBoolean from part_010. -/
def parseBooleanObj (s : List Nat) : Except PErr (Obj × List Nat) :=
  let tk := readToken s
  if tk.1 == kwTrue then .ok (Obj.bool true, tk.2)
  else if tk.1 == kwFalse then .ok (Obj.bool false, tk.2)
  else .error PErr.expectedKeyword

/-- parseNull from part_010. -/
def parseNullObj (s : List Nat) : Except PErr (Obj × List Nat) :=
  let tk := readToken s
  if tk.1 == kwNull then .ok (Obj.null, tk.2)
  else .error PErr.expectedKeyword

/-! ParseObject from part_010 dispatches on the first non-whitespace byte
and recurses for arrays and dictionaries.  The Go recursion consumes at
least one byte per level; the embedding makes termination explicit with a
fuel argument, and running out of fuel is one more parse-failure outcome.
Callers pass `data.length + 1`, which dominates the recursion depth. -/

mutual

/-- ParseObject from part_010: dispatch on the first non-whitespace byte. -/
def parseObject (fuel : Nat) (s : List Nat) : Except PErr (Obj × List Nat) :=
  match fuel with
  | 0 => .error PErr.fuelExhausted
  | fuel + 1 =>
    let r := skipWs s
    match r with
    | [] => .error PErr.unexpectedEof
    | b :: rest =>
      if b == 60 then
        match rest with
        | 60 :: rest2 => parseDictLoop fuel rest2 []
        | _ => parseHexString r
      else if b == 40 then parseLiteralString r
      else if b == 47 then
        match parseName r with
        | .ok (n, r2) => .ok (Obj.name n, r2)
        | .error e => .error e
      else if b == 91 then parseArrayLoop fuel rest []
      else if b == 116 || b == 102 then parseBooleanObj r
      else if b == 110 then parseNullObj r
      else if isDigitB b || b == 43 || b == 45 || b == 46 then parseNumberOrRef r
      else .error PErr.unexpectedChar

/-- Element loop of parseArray from part_010. -/
def parseArrayLoop (fuel : Nat) (s : List Nat) (acc : List Obj) :
    Except PErr (Obj × List Nat) :=
  match fuel with
  | 0 => .error PErr.fuelExhausted
  | fuel + 1 =>
    let r := skipWs s
    match r with
    | [] => .error PErr.unterminated
    | 93 :: rest => .ok (Obj.arr acc.reverse, rest)
    | _ =>
      match parseObject fuel r with
      | .ok (o, r2) => parseArrayLoop fuel r2 (o :: acc)
      | .error e => .error e

/-- Pair loop of parseDict from part_010. -/
def parseDictLoop (fuel : Nat) (s : List Nat) (acc : List (List Nat × Obj)) :
    Except PErr (Obj × List Nat) :=
  match fuel with
  | 0 => .error PErr.fuelExhausted
  | fuel + 1 =>
    let r := skipWs s
    match r with
    | [] => .error PErr.unterminated
    | 62 :: 62 :: rest => .ok (Obj.dict acc, rest)
    | _ =>
      match parseName r with
      | .error e => .error e
      | .ok (key, r2) =>
        match parseObject fuel r2 with
        | .error e => .error e
        | .ok (v, r3) => parseDictLoop fuel r3 ((key, v) :: acc)

end

/-- ParseIndirectObject from part_010: `N G obj <value>` with the optional
stream payload taken from `/Length`, then `endstream`/`endobj` consumed when
present.  Returns object number, generation, value and remaining suffix. -/
def parseIndirectObject (fuel : Nat) (s : List Nat) :
    Except PErr (Int × Int × Obj × List Nat) :=
  let tk1 := readToken s
  match goParseInt tk1.1 with
  | none => .error PErr.invalidNumber
  | some num =>
    let tk2 := readToken tk1.2
    match goParseInt tk2.1 with
    | none => .error PErr.invalidNumber
    | some gen =>
      let tk3 := readToken tk2.2
      if tk3.1 == kwObj then
        match parseObject fuel tk3.2 with
        | .error e => .error e
        | .ok (v, r1) =>
          let r2 := skipWs r1
          if kwStream.isPrefixOf r2 then
            match v with
            | Obj.dict d =>
              let r3 := r2.drop 6
              let r4 := match r3 with | 13 :: t => t | t => t
              let r5 := match r4 with | 10 :: t => t | t => t
              let len : Int := (dictGetInt d kwLength).getD 0
              if len < 0 || (r5.length : Int) < len then .error PErr.streamBounds
              else
                let payload := r5.take len.toNat
                let r6 := skipWs (r5.drop len.toNat)
                let r7 := if kwEndstream.isPrefixOf r6 then r6.drop 9 else r6
                let r8 := skipWs r7
                let r9 := if kwEndobj.isPrefixOf r8 then r8.drop 6 else r8
                .ok (num, gen, Obj.stream d payload, r9)
            | _ => .error PErr.unexpectedChar
          else
            let r8 := skipWs r2
            let r9 := if kwEndobj.isPrefixOf r8 then r8.drop 6 else r8
            .ok (num, gen, v, r9)
      else .error PErr.expectedKeyword

/-! ## Claim C6: reference look-ahead in parseNumberOrRef -/

/-- Test whether a parse result delivered an indirect reference. -/
def resultIsRef (r : Except PErr (Obj × List Nat)) : Bool :=
  match r with
  | .ok (Obj.ref _ _, _) => true
  | _ => false

/-- Reference pattern exactly as claim C6 words it: the first token an
integer, after whitespace a second token that is a non-negative integer,
and then the keyword `R` as a complete token. -/
def claimRefPattern (s : List Nat) : Bool :=
  let tk := readToken s
  (goParseInt tk.1).isSome &&
    (let tk2 := readToken tk.2
     (!tk2.1.isEmpty && tk2.1.all isDigitB && (goParseInt tk2.1).isSome &&
       ((readToken tk2.2).1 == [82])))

/-- Reference pattern as the code decides it: as in the claim, except that
after the second integer only the single byte `R` is required; the byte may
open a longer token such as `RG`, and only the `R` itself is consumed. -/
def codeRefPattern (s : List Nat) : Bool :=
  let tk := readToken s
  (goParseInt tk.1).isSome &&
    (let tk2 := readToken tk.2
     (!tk2.1.isEmpty && tk2.1.all isDigitB && (goParseInt tk2.1).isSome &&
       ((skipWs tk2.2).head? == some 82)))

theorem isRegularB_of_digit {b : Nat} (h : isDigitB b = true) : isRegularB b = true := by
  simp only [isDigitB, Bool.and_eq_true, decide_eq_true_eq] at h
  simp only [isRegularB, isWhitespaceB, isDelimiterB, Bool.and_eq_true, Bool.not_eq_true',
    Bool.or_eq_false_iff, beq_eq_false_iff_ne, ne_eq]
  omega

theorem skipWs_shape (l : List Nat) :
    skipWs l = [] ∨
      ∃ c t, skipWs l = c :: t ∧ isWhitespaceB c = false ∧ (c == 37) = false := by
  have main : ∀ n : Nat,
      (∀ l : List Nat, l.length ≤ n → skipWs l = [] ∨
        ∃ c t, skipWs l = c :: t ∧ isWhitespaceB c = false ∧ (c == 37) = false) ∧
      (∀ l : List Nat, l.length ≤ n → skipComment l = [] ∨
        ∃ c t, skipComment l = c :: t ∧ isWhitespaceB c = false ∧ (c == 37) = false) := by
    intro n
    induction n with
    | zero =>
      constructor <;> intro l hl <;>
        rw [List.eq_nil_of_length_eq_zero (Nat.le_zero.mp hl)] <;> exact Or.inl rfl
    | succ n ih =>
      constructor <;> intro l hl
      · match l with
        | [] => exact Or.inl rfl
        | b :: rest =>
          simp only [List.length_cons, Nat.succ_le_succ_iff] at hl
          simp only [skipWs]
          by_cases hw : isWhitespaceB b = true
          · rw [if_pos hw]
            exact ih.1 rest hl
          · rw [if_neg hw]
            by_cases hp : (b == 37) = true
            · rw [if_pos hp]
              exact ih.2 rest hl
            · rw [if_neg hp]
              exact Or.inr ⟨b, rest, rfl, Bool.not_eq_true _ ▸ hw, Bool.not_eq_true _ ▸ hp⟩
      · match l with
        | [] => exact Or.inl rfl
        | b :: rest =>
          simp only [List.length_cons, Nat.succ_le_succ_iff] at hl
          simp only [skipComment]
          by_cases he : (b == 10 || b == 13) = true
          · rw [if_pos he]
            exact ih.1 rest hl
          · rw [if_neg he]
            exact ih.2 rest hl
  exact (main l.length).1 l le_rfl

theorem skipWs_idem (l : List Nat) : skipWs (skipWs l) = skipWs l := by
  rcases skipWs_shape l with h | ⟨c, t, h, hw, hp⟩
  · rw [h]; rfl
  · rw [h]
    simp only [skipWs]
    rw [if_neg (by simp [hw]), if_neg (by simp [hp])]

theorem goParseInt_digit_all {c : Nat} {ts : List Nat} (hc : isDigitB c = true)
    {g : Int} (h : goParseInt (c :: ts) = some g) : (c :: ts).all isDigitB = true := by
  have hrange : 48 ≤ c ∧ c ≤ 57 := by
    simpa only [isDigitB, Bool.and_eq_true, decide_eq_true_eq] using hc
  have hc43 : (c == 43) = false := by
    simp only [beq_eq_false_iff_ne, ne_eq]; omega
  have hc45 : (c == 45) = false := by
    simp only [beq_eq_false_iff_ne, ne_eq]; omega
  by_cases hall : (c :: ts).all isDigitB = true
  · exact hall
  · exfalso
    simp only [goParseInt, hc43, hc45, if_false, Bool.false_eq_true] at h
    rw [Bool.not_eq_true] at hall
    simp [hall] at h

theorem readToken_skipWs (l : List Nat) : readToken (skipWs l) = readToken l := by
  simp [readToken, skipWs_idem]

theorem parseNumberOrRef_iff_aux (s : List Nat) :
    (resultIsRef (parseNumberOrRef s) = true ↔ codeRefPattern s = true) ∧
    (∀ n : Int, goParseInt (readToken s).1 = some n → codeRefPattern s = false →
      parseNumberOrRef s = .ok (Obj.int n, (readToken s).2)) ∧
    (goParseInt (readToken s).1 = none →
      parseNumberOrRef s = .error PErr.invalidNumber ∨
      ∃ q, parseNumberOrRef s = .ok (Obj.real q, (readToken s).2)) := by
  simp only [parseNumberOrRef, codeRefPattern, readToken_skipWs]
  generalize hs : readToken s = tk
  obtain ⟨tok1, rest1⟩ := tk
  simp only [readToken]
  cases h1 : goParseInt tok1 with
  | none =>
    simp only [h1]
    refine ⟨?_, ?_, ?_⟩
    · cases hq : goParseFloat tok1 <;> simp [hq, resultIsRef]
    · intro n hn; cases hn
    · intro _
      cases hq : goParseFloat tok1 with
      | none => exact Or.inl (by simp [hq])
      | some q => exact Or.inr ⟨q, by simp [hq]⟩
  | some n0 =>
    simp only [h1]
    cases h2 : skipWs rest1 with
    | nil =>
      refine ⟨by simp [resultIsRef], ?_, ?_⟩
      · intro n hn _; cases hn; rfl
      · intro hn; cases hn
    | cons c rt =>
      by_cases hd : isDigitB c = true
      · have hreg : isRegularB c = true := isRegularB_of_digit hd
        simp only [hd, if_true, List.takeWhile_cons, List.dropWhile_cons, hreg]
        cases h3 : goParseInt (c :: List.takeWhile isRegularB rt) with
        | none =>
          simp only [h3]
          refine ⟨by simp [resultIsRef], ?_, ?_⟩
          · intro n hn _; cases hn; rfl
          · intro hn; cases hn
        | some g =>
          simp only [h3]
          cases h4 : skipWs (List.dropWhile isRegularB rt) with
          | nil =>
            refine ⟨by simp [resultIsRef], ?_, ?_⟩
            · intro n hn _; cases hn; rfl
            · intro hn; cases hn
          | cons c2 r5 =>
            by_cases h82 : (c2 == 82) = true
            · have hall := goParseInt_digit_all hd h3
              simp only [h82, if_true]
              refine ⟨?_, ?_, ?_⟩
              · simp [resultIsRef, hall, h82, List.all_cons]
              · intro n hn hfalse
                exfalso
                simp [hall, h82, List.all_cons] at hfalse
              · intro hn; cases hn
            · simp only [h82, if_false]
              refine ⟨?_, ?_, ?_⟩
              · simp [resultIsRef, h82]
              · intro n hn _; cases hn; rfl
              · intro hn; cases hn
      · simp only [hd, if_false]
        by_cases hreg : isRegularB c = true
        · refine ⟨?_, ?_, ?_⟩
          · simp [resultIsRef, List.takeWhile_cons, hreg, hd]
          · intro n hn _; cases hn; rfl
          · intro hn; cases hn
        · refine ⟨?_, ?_, ?_⟩
          · simp [resultIsRef, List.takeWhile_cons, hreg]
          · intro n hn _; cases hn; rfl
          · intro hn; cases hn

/-- C6 (amended): a token starting with a digit, `+`, `-` or `.` parses to
an indirect Reference exactly when the first token is a 64-bit integer and,
after whitespace, a second digit-initial token is a (necessarily
non-negative) 64-bit integer followed, after whitespace, by the byte `R`;
only that byte is consumed, so the `R` need not be a complete token.  When
the pattern fails and the first token is an integer, the cursor is restored
to just after the first token and that integer alone is returned; when the
first token is not a 64-bit integer the result is a real (or a parse
error) with the cursor likewise after the token.  In particular `[1 2 3]`
parses as three Integers and `[1 2 R]` as one Reference. -/
theorem parseNumberOrRef_lookahead :
    (∀ s : List Nat,
      (resultIsRef (parseNumberOrRef s) = true ↔ codeRefPattern s = true) ∧
      (∀ n : Int, goParseInt (readToken s).1 = some n → codeRefPattern s = false →
        parseNumberOrRef s = .ok (Obj.int n, (readToken s).2)) ∧
      (goParseInt (readToken s).1 = none →
        parseNumberOrRef s = .error PErr.invalidNumber ∨
        ∃ q, parseNumberOrRef s = .ok (Obj.real q, (readToken s).2))) ∧
    parseObject 8 [91, 49, 32, 50, 32, 51, 93] =
      .ok (Obj.arr [Obj.int 1, Obj.int 2, Obj.int 3], []) ∧
    parseObject 8 [91, 49, 32, 50, 32, 82, 93] = .ok (Obj.arr [Obj.ref 1 2], []) :=
  ⟨parseNumberOrRef_iff_aux, rfl, rfl⟩

/-- Witness for C6: on the bytes `1 2 3` the pattern fails, the result is
the Integer 1 and the cursor is restored to just after the `1`. -/
theorem parseNumberOrRef_lookahead_witness :
    goParseInt (readToken [49, 32, 50, 32, 51]).1 = some 1 ∧
    codeRefPattern [49, 32, 50, 32, 51] = false ∧
    parseNumberOrRef [49, 32, 50, 32, 51] = .ok (Obj.int 1, [32, 50, 32, 51]) := by
  refine ⟨by decide, by decide, ?_⟩
  exact (parseNumberOrRef_lookahead.1 [49, 32, 50, 32, 51]).2.1 1 (by decide) (by decide)

/-- Counterexample to C6 as stated: on the bytes `1 2 RG` the code returns
the Reference `1 2` although the token after the second integer is `RG`,
not the keyword `R`. -/
theorem parseNumberOrRef_keyword_counterexample :
    ¬ (∀ s : List Nat, resultIsRef (parseNumberOrRef s) = true ↔ claimRefPattern s = true) := by
  intro h
  have h2 := (h [49, 32, 50, 32, 82, 71]).mp (by decide)
  have h3 : claimRefPattern [49, 32, 50, 32, 82, 71] = false := by decide
  rw [h2] at h3
  cases h3

/-! ## Document and reference resolution (`part_012`)

The Document carries the raw bytes and the xref table.  The optional RC4
cipher attached in the encrypted case only rewrites string and stream bytes
during parsing; it changes none of the control paths of `resolve`, so the
embedding models the unencrypted reader and `resolve` keeps the generation
argument that Go uses only to derive the per-object cipher key. -/

/-- Document state used by `resolve` (`Document` in part_012). -/
structure Document where
  data : List Nat
  xref : XrefTable

set_option linter.unusedVariables false in
/-- resolve from part_012 lines 174-199: absent or free entries yield Null
with no error; a recorded offset outside the file is an error; otherwise
the indirect object at the offset is parsed and its value returned.  The
generation number feeds only the per-object cipher key in Go. -/
def resolve (d : Document) (num gen : Int) : Except PErr Obj :=
  match d.xref num with
  | none => .ok Obj.null
  | some entry =>
    if !entry.inUse then .ok Obj.null
    else if entry.offset < 0 || (d.data.length : Int) ≤ entry.offset then
      .error PErr.offsetOutOfBounds
    else
      match parseIndirectObject (d.data.length + 1) (d.data.drop entry.offset.toNat) with
      | .ok (_, _, v, _) => .ok v
      | .error e => .error e

/-- resolveIfRef from part_012: forward references, pass values through. -/
def resolveIfRef (d : Document) (o : Obj) : Except PErr Obj :=
  match o with
  | Obj.ref n g => resolve d n g
  | _ => .ok o

/-- C9: resolve returns the PDF Null object with no error whenever the
object number is absent from the xref table or its entry is free; an error
is returned only when the recorded offset lies outside the file or the
object at that offset fails to parse. -/
theorem resolve_absent_null (d : Document) (num gen : Int) :
    ((d.xref num = none ∨ ∃ e, d.xref num = some e ∧ e.inUse = false) →
      resolve d num gen = .ok Obj.null) ∧
    (∀ err, resolve d num gen = .error err →
      ∃ e, d.xref num = some e ∧ e.inUse = true ∧
        (e.offset < 0 ∨ (d.data.length : Int) ≤ e.offset ∨
          ∃ pe, parseIndirectObject (d.data.length + 1)
            (d.data.drop e.offset.toNat) = .error pe)) := by
  constructor
  · intro h
    rcases h with h | ⟨e, he, hfree⟩
    · simp [resolve, h]
    · simp [resolve, he, hfree]
  · intro err herr
    cases hx : d.xref num with
    | none => simp [resolve, hx] at herr
    | some e =>
      refine ⟨e, rfl, ?_⟩
      simp only [resolve, hx] at herr
      cases hu : e.inUse with
      | false => simp [hu] at herr
      | true =>
        refine ⟨rfl, ?_⟩
        simp only [hu, Bool.not_true] at herr
        rw [if_neg (by simp)] at herr
        by_cases h0 : e.offset < 0
        · exact Or.inl h0
        by_cases hlen : (d.data.length : Int) ≤ e.offset
        · exact Or.inr (Or.inl hlen)
        refine Or.inr (Or.inr ?_)
        rw [if_neg (by simp [h0, hlen])] at herr
        cases hp : parseIndirectObject (d.data.length + 1) (d.data.drop e.offset.toNat) with
        | ok v =>
          rw [hp] at herr
          obtain ⟨a, b2, c, r⟩ := v
          simp at herr
        | error pe => exact ⟨pe, rfl⟩

/-- Witness for C9: in a document with an empty xref table, resolving
object 5 yields Null without error. -/
theorem resolve_absent_null_witness :
    ((Document.mk [] fun _ => none).xref 5 = none ∨
      ∃ e, (Document.mk [] fun _ => none).xref 5 = some e ∧ e.inUse = false) ∧
    resolve (Document.mk [] fun _ => none) 5 0 = .ok Obj.null :=
  ⟨Or.inl rfl, (resolve_absent_null (Document.mk [] fun _ => none) 5 0).1 (Or.inl rfl)⟩

/-! ## Page tree traversal (`reader/page.go`)

`traversePageTree` recurses through `/Pages` nodes with no depth bound and
no cycle detection.  The embedding makes the recursion depth explicit as
fuel: an execution whose recursion exceeds the fuel yields `outOfFuel`, so
"the Go recursion is unbounded on this input" is "every fuel yields
`outOfFuel`". -/

/-- Byte spelling of the name `Type`. -/
def kwType : List Nat := [84, 121, 112, 101]

/-- Byte spelling of the name `Page`. -/
def kwPage : List Nat := [80, 97, 103, 101]

/-- Byte spelling of the name `Pages`. -/
def kwPages : List Nat := [80, 97, 103, 101, 115]

/-- Byte spelling of the name `Kids`. -/
def kwKids : List Nat := [75, 105, 100, 115]

/-- Byte spelling of the name `MediaBox`. -/
def kwMediaBox : List Nat := [77, 101, 100, 105, 97, 66, 111, 120]

/-- Byte spelling of the name `CropBox`. -/
def kwCropBox : List Nat := [67, 114, 111, 112, 66, 111, 120]

/-- Byte spelling of the name `Resources`. -/
def kwResources : List Nat := [82, 101, 115, 111, 117, 114, 99, 101, 115]

/-- Byte spelling of the name `Rotate`. -/
def kwRotate : List Nat := [82, 111, 116, 97, 116, 101]

/-- Byte spelling of the name `Contents`. -/
def kwContents : List Nat := [67, 111, 110, 116, 101, 110, 116, 115]

/-- Rectangle from page.go (`Rectangle`), with exact rational coordinates. -/
structure RectM where
  llx : Rat
  lly : Rat
  urx : Rat
  ury : Rat

/-- Zero value of a Go `Rectangle`. -/
def rectZero : RectM := ⟨0, 0, 0, 0⟩

/-- Numeric value of an Integer or Real object, as used by parseRectangle. -/
def numVal : Obj → Option Rat
  | Obj.int n => some (n : Rat)
  | Obj.real q => some q
  | _ => none

/-- parseRectangle from page.go lines 46-64. -/
def parseRectangle (o : Obj) : Except PErr RectM :=
  match o with
  | Obj.arr [a, b, c, d] =>
    (match numVal a, numVal b, numVal c, numVal d with
    | some va, some vb, some vc, some vd => .ok ⟨va, vb, vc, vd⟩
    | _, _, _, _ => .error PErr.unexpectedChar)
  | _ => .error PErr.unexpectedChar

/-- Page as assembled by the traversal (`Page` in page.go); content streams
are (dictionary, raw payload) pairs. -/
structure PageM where
  number : Int
  mediaBox : RectM
  cropBox : Option RectM
  resources : List (List Nat × Obj)
  contents : List (List (List Nat × Obj) × List Nat)
  rotate : Int

/-- Go map assignment `d[k] = v` on the association-list model. -/
def dictSet (d : List (List Nat × Obj)) (k : List Nat) (v : Obj) : List (List Nat × Obj) :=
  (k, v) :: d

/-- Inheritance merge of page.go lines 108-118: copy the inherited dict and
override the four inheritable keys present on the node. -/
def mergeInherited (inherited node : List (List Nat × Obj)) : List (List Nat × Obj) :=
  [kwMediaBox, kwCropBox, kwResources, kwRotate].foldl
    (fun m key =>
      match dictGet node key with
      | some v => dictSet m key v
      | none => m)
    inherited

/-- Content streams collected from a `/Contents` array (page.go 177-187):
unresolvable or non-stream items are skipped. -/
def contentsOfArray (d : Document) (items : List Obj) :
    List (List (List Nat × Obj) × List Nat) :=
  items.foldr
    (fun it acc =>
      match resolveIfRef d it with
      | .ok (Obj.stream sd sp) => (sd, sp) :: acc
      | _ => acc)
    []

/-- Leaf-page construction of page.go lines 120-191: box, resource and
rotation failures are ignored, a `/Contents` resolution failure aborts. -/
def buildLeafPage (d : Document) (node merged : List (List Nat × Obj)) (numPages : Nat) :
    Except PErr PageM :=
  let mb : RectM :=
    match dictGet merged kwMediaBox with
    | some v =>
      (match resolveIfRef d v with
       | .ok rv => (match parseRectangle rv with | .ok r => r | .error _ => rectZero)
       | .error _ => rectZero)
    | none => rectZero
  let cb : Option RectM :=
    match dictGet merged kwCropBox with
    | some v =>
      (match resolveIfRef d v with
       | .ok rv => (match parseRectangle rv with | .ok r => some r | .error _ => none)
       | .error _ => none)
    | none => none
  let res : List (List Nat × Obj) :=
    match dictGet merged kwResources with
    | some v => (match resolveIfRef d v with | .ok (Obj.dict rd) => rd | _ => [])
    | none => []
  let rot : Int :=
    match dictGet merged kwRotate with
    | some v => (match resolveIfRef d v with | .ok (Obj.int n) => n | _ => 0)
    | none => 0
  match dictGet node kwContents with
  | none => .ok ⟨(numPages : Int) + 1, mb, cb, res, [], rot⟩
  | some cv =>
    match resolveIfRef d cv with
    | .error e => .error e
    | .ok (Obj.stream sd sp) => .ok ⟨(numPages : Int) + 1, mb, cb, res, [(sd, sp)], rot⟩
    | .ok (Obj.arr items) => .ok ⟨(numPages : Int) + 1, mb, cb, res, contentsOfArray d items, rot⟩
    | .ok _ => .ok ⟨(numPages : Int) + 1, mb, cb, res, [], rot⟩

/-- Outcome of the fuel-indexed traversal: the accumulated page list, a
propagated error, or exhaustion of the recursion fuel. -/
inductive TraverseOut where
  | done (pages : List PageM)
  | err (e : PErr)
  | outOfFuel

mutual

/-- traversePageTree from page.go lines 105-221.  The Go function has no
depth bound; the fuel argument makes its recursion depth observable, and
`outOfFuel` marks exactly the executions whose depth exceeds the fuel. -/
def traversePageTree (d : Document) (fuel : Nat) (node inherited : List (List Nat × Obj))
    (pages : List PageM) : TraverseOut :=
  match fuel with
  | 0 => .outOfFuel
  | fuel + 1 =>
    let merged := mergeInherited inherited node
    if dictGetName node kwType == kwPage then
      (match buildLeafPage d node merged pages.length with
      | .ok page => .done (pages ++ [page])
      | .error e => .err e)
    else
      match dictGetArray node kwKids with
      | some kids => traverseKids d fuel kids merged pages
      | none =>
        match dictGet node kwKids with
        | some (Obj.ref n g) =>
          (match resolve d n g with
           | .error e => .err e
           | .ok (Obj.arr kids) => traverseKids d fuel kids merged pages
           | .ok _ => traverseKids d fuel [] merged pages)
        | _ => traverseKids d fuel [] merged pages
termination_by (fuel, 0)

/-- Kid loop of traversePageTree (page.go lines 206-218): resolve each kid,
skip non-dictionaries, recurse on dictionaries, propagate errors. -/
def traverseKids (d : Document) (fuel : Nat) (kids : List Obj)
    (merged : List (List Nat × Obj)) (pages : List PageM) : TraverseOut :=
  match kids with
  | [] => .done pages
  | kid :: rest =>
    match resolveIfRef d kid with
    | .error e => .err e
    | .ok (Obj.dict kd) =>
      (match traversePageTree d fuel kd merged pages with
       | .done pages2 => traverseKids d fuel rest merged pages2
       | out => out)
    | .ok _ => traverseKids d fuel rest merged pages
termination_by (fuel, kids.length + 1)

end

/-- Bytes of the object `2 0 obj << /Type /Pages /Kids [2 0 R] >> endobj`:
a `/Pages` node whose only kid is itself. -/
def cycData : List Nat :=
  [50, 32, 48, 32, 111, 98, 106, 32, 60, 60, 32, 47, 84, 121, 112, 101, 32, 47,
   80, 97, 103, 101, 115, 32, 47, 75, 105, 100, 115, 32, 91, 50, 32, 48, 32, 82,
   93, 32, 62, 62, 32, 101, 110, 100, 111, 98, 106]

/-- Document holding only the self-referential `/Pages` node. -/
def cycDoc : Document := ⟨cycData, fun n => if n = 2 then some ⟨0, 0, true⟩ else none⟩

/-- Dictionary value the parser yields for object 2 of `cycDoc`. -/
def cycPagesDict : List (List Nat × Obj) :=
  [(kwKids, Obj.arr [Obj.ref 2 0]), (kwType, Obj.name kwPages)]

theorem cyc_resolve : resolve cycDoc 2 0 = .ok (Obj.dict cycPagesDict) := rfl

/-- C7 (the code lacks the claimed bound): on the self-referential
`/Pages` node of `cycDoc`, the traversal exhausts every finite recursion
depth — no fuel suffices, there is no depth cap at 64 and no cycle error;
the Go recursion on this input is unbounded. -/
theorem traversePageTree_cycle_unbounded :
    ∀ (fuel : Nat) (inherited : List (List Nat × Obj)) (pages : List PageM),
      traversePageTree cycDoc fuel cycPagesDict inherited pages = TraverseOut.outOfFuel := by
  intro fuel
  induction fuel with
  | zero =>
    intro inherited pages
    simp [traversePageTree]
  | succ n ih =>
    intro inherited pages
    have hguard : (dictGetName cycPagesDict kwType == kwPage) = false := by decide
    have harr : dictGetArray cycPagesDict kwKids = some [Obj.ref 2 0] := rfl
    have hres : resolveIfRef cycDoc (Obj.ref 2 0) = .ok (Obj.dict cycPagesDict) := cyc_resolve
    simp only [traversePageTree, hguard, Bool.false_eq_true, if_false, harr]
    simp only [traverseKids, hres]
    rw [ih]

/-! ## RC4 and user-password validation (`reader/crypt.go`)

RC4 follows Go's `crypto/rc4`: `NewCipher` rejects key sizes outside
1..256, the key schedule permutes 0..255, and `XORKeyStream` advances the
`(i, j)` state per output byte.  `bytesEqual` is the comparison helper of
crypt.go lines 284-302, which on length mismatch compares only the first
`min` bytes. -/

/-- Standard 32-byte PDF password padding (crypt.go lines 11-16). -/
def pdfPadding : List Nat :=
  [0x28, 0xBF, 0x4E, 0x5E, 0x4E, 0x75, 0x8A, 0x41,
   0x64, 0x00, 0x4E, 0x56, 0xFF, 0xFA, 0x01, 0x08,
   0x2E, 0x2E, 0x00, 0xB6, 0xD0, 0x68, 0x3E, 0x80,
   0x2F, 0x0C, 0xA9, 0xFE, 0x64, 0x53, 0x69, 0x7A]

/-- Exchange of two positions of the RC4 state. -/
def listSwap (s : List Nat) (i j : Nat) : List Nat :=
  let vi := s.getD i 0
  let vj := s.getD j 0
  (s.set i vj).set j vi

/-- RC4 key schedule of `crypto/rc4.NewCipher`. -/
def rc4Init (key : List Nat) : List Nat :=
  ((List.range 256).foldl
    (fun p i =>
      let j := (p.2 + p.1.getD i 0 + key.getD (i % key.length) 0) % 256
      (listSwap p.1 i j, j))
    (List.range 256, 0)).1

/-- RC4 keystream generation of `XORKeyStream`, one output byte per input
byte. -/
def rc4Prga (s : List Nat) (i j : Nat) (input : List Nat) : List Nat :=
  match input with
  | [] => []
  | b :: rest =>
    let i2 := (i + 1) % 256
    let j2 := (j + s.getD i2 0) % 256
    let s2 := listSwap s i2 j2
    let k := s2.getD ((s2.getD i2 0 + s2.getD j2 0) % 256) 0
    Nat.xor b k :: rc4Prga s2 i2 j2 rest

/-- RC4 encryption of a byte sequence; `none` models the `NewCipher` key
size error, which `validateUserPassword` turns into a failed validation. -/
def rc4EncryptBytes (key input : List Nat) : Option (List Nat) :=
  if key.length < 1 || 256 < key.length then none
  else some (rc4Prga (rc4Init key) 0 0 input)

/-- Element-wise comparison loop of bytesEqual (crypt.go lines 296-301);
the Go loop indexes `b` by positions of `a` and is only reached with equal
lengths, so the shape mismatch arm is never taken there. -/
def bytesEqualLoop : List Nat → List Nat → Bool
  | [], _ => true
  | _ :: _, [] => true
  | a :: as2, b :: bs => if a == b then bytesEqualLoop as2 bs else false

/-- bytesEqual from crypt.go lines 284-302: equal lengths compare
element-wise; unequal lengths recurse on the first `min` bytes, failing
only when that minimum is zero. -/
def bytesEqual (a b : List Nat) : Bool :=
  if a.length ≠ b.length then
    let n := min a.length b.length
    if n = 0 then false
    else bytesEqual (a.take n) (b.take n)
  else bytesEqualLoop a b
termination_by a.length + b.length
decreasing_by
  simp only [List.length_take]
  omega

/-- Revision-2 branch of validateUserPassword (crypt.go lines 167-177):
RC4-encrypt the padding with the file key and compare against `/U` with
`bytesEqual`.  The revision 3 branch of the Go function (MD5 based) is not
modelled; claim C5 concerns revision 2 only. -/
def validateUserPasswordR2 (key userHash : List Nat) : Bool :=
  match rc4EncryptBytes key pdfPadding with
  | none => false
  | some computed => bytesEqual computed userHash

theorem rc4Prga_length (input : List Nat) :
    ∀ s i j, (rc4Prga s i j input).length = input.length := by
  induction input with
  | nil => intro s i j; rfl
  | cons b rest ih =>
    intro s i j
    simp only [rc4Prga, List.length_cons]
    rw [ih]

theorem bytesEqualLoop_iff (a : List Nat) :
    ∀ b : List Nat, a.length = b.length → (bytesEqualLoop a b = true ↔ a = b) := by
  induction a with
  | nil =>
    intro b h
    cases b with
    | nil => simp [bytesEqualLoop]
    | cons x xs => simp at h
  | cons x xs ih =>
    intro b h
    cases b with
    | nil => simp at h
    | cons y ys =>
      simp only [List.length_cons, Nat.succ_inj] at h  -- wait name
      simp only [bytesEqualLoop]
      by_cases hxy : (x == y) = true
      · rw [if_pos hxy]
        rw [ih ys h]
        have hx : x = y := by simpa using hxy
        subst hx
        simp
      · rw [if_neg hxy]
        constructor
        · intro hfalse; cases hfalse
        · intro heq
          injection heq with h1 h2
          exact absurd (by simp [h1]) hxy

/-- Characterization of bytesEqual: full equality when the lengths agree,
agreement on the first `min` bytes (at least one) otherwise. -/
theorem bytesEqual_spec (a b : List Nat) :
    bytesEqual a b = true ↔
      (a = b ∨
        (a.length ≠ b.length ∧ 0 < min a.length b.length ∧
          a.take (min a.length b.length) = b.take (min a.length b.length))) := by
  by_cases hlen : a.length = b.length
  · rw [bytesEqual, if_neg (by simp [hlen])]
    rw [bytesEqualLoop_iff a b hlen]
    constructor
    · exact Or.inl
    · intro h
      rcases h with h | ⟨hne, _, _⟩
      · exact h
      · exact absurd hlen hne
  · rw [bytesEqual, if_pos hlen]
    by_cases hmin : min a.length b.length = 0
    · rw [if_pos hmin]
      constructor
      · intro hfalse; cases hfalse
      · intro h
        rcases h with h | ⟨_, hpos, _⟩
        · exact absurd (congrArg List.length h) hlen
        · omega
    · rw [if_neg hmin]
      have hlt : (a.take (min a.length b.length)).length =
          (b.take (min a.length b.length)).length := by
        simp only [List.length_take]
        omega
      rw [bytesEqual, if_neg (by simp [hlt]), bytesEqualLoop_iff _ _ hlt]
      constructor
      · intro h
        exact Or.inr ⟨hlen, Nat.pos_of_ne_zero hmin, h⟩
      · intro h
        rcases h with h | ⟨_, _, h⟩
        · exact absurd (congrArg List.length h) hlen
        · exact h

/-- C5 (amended): revision-2 user-password validation succeeds exactly
when the RC4 encryption of the 32-byte padding with the file key is
defined and agrees with `/U` byte-for-byte when their lengths match — or,
when the lengths differ, agrees on the first `min` bytes with at least one
byte compared.  Validation is not plain byte-string equality. -/
theorem validateUserPasswordR2_iff (key userHash : List Nat) :
    validateUserPasswordR2 key userHash = true ↔
      ∃ computed, rc4EncryptBytes key pdfPadding = some computed ∧
        (computed = userHash ∨
          (computed.length ≠ userHash.length ∧
            0 < min computed.length userHash.length ∧
            computed.take (min computed.length userHash.length) =
              userHash.take (min computed.length userHash.length))) := by
  cases hc : rc4EncryptBytes key pdfPadding with
  | none =>
    simp only [validateUserPasswordR2, hc]
    constructor
    · intro hfalse; cases hfalse
    · intro ⟨c, hcc, _⟩; cases hcc
  | some computed =>
    simp only [validateUserPasswordR2, hc]
    rw [bytesEqual_spec]
    constructor
    · intro h; exact ⟨computed, rfl, h⟩
    · intro ⟨c, hcc, h⟩
      injection hcc with hcc
      exact hcc ▸ h

/-- Counterexample to C5 as stated: with the 40-bit key `[1, 2, 3, 4, 5]`
and a 33-byte `/U` equal to the RC4 output with one byte appended,
validation succeeds although the RC4 output does not equal `/U` — the
comparison accepted a mere common prefix. -/
theorem validateUserPasswordR2_prefix_counterexample :
    validateUserPasswordR2 [1, 2, 3, 4, 5]
        ((rc4EncryptBytes [1, 2, 3, 4, 5] pdfPadding).getD [] ++ [0]) = true ∧
      rc4EncryptBytes [1, 2, 3, 4, 5] pdfPadding ≠
        some ((rc4EncryptBytes [1, 2, 3, 4, 5] pdfPadding).getD [] ++ [0]) := by
  have hkey : rc4EncryptBytes [1, 2, 3, 4, 5] pdfPadding =
      some (rc4Prga (rc4Init [1, 2, 3, 4, 5]) 0 0 pdfPadding) := by
    rw [rc4EncryptBytes]
    rfl
  set c := rc4Prga (rc4Init [1, 2, 3, 4, 5]) 0 0 pdfPadding with hcdef
  have hclen : c.length = 32 := by
    rw [hcdef, rc4Prga_length]
    rfl
  have hgetD : (rc4EncryptBytes [1, 2, 3, 4, 5] pdfPadding).getD [] = c := by
    rw [hkey]; rfl
  constructor
  · rw [hgetD, validateUserPasswordR2]
    rw [hkey]
    rw [bytesEqual_spec]
    refine Or.inr ⟨?_, ?_, ?_⟩
    · simp [hclen]
    · simp [hclen]
    · have hmin : min c.length (c ++ [0]).length = c.length := by
        simp
      rw [hmin, List.take_length, List.take_left]
  · rw [hgetD]
    intro h
    injection h with h
    have := congrArg List.length h
    simp [hclen] at this

/-! ## Stream decoding and page content (`reader/filter.go`, `reader/page.go`)

`decodeStream` dispatches on `/Filter`; the Go standard-library codecs
(compress/zlib for FlateDecode, encoding/ascii85) are abstracted as
parameters, while the repository's own ASCIIHex cleaning and the `~>`
trimming are translated directly.  `contentStream` is
`Page.ContentStream`, which appends one LF after every decoded stream. -/

/-- Byte spelling of the name `Filter`. -/
def kwFilter : List Nat := [70, 105, 108, 116, 101, 114]

/-- Byte spelling of the name `FlateDecode`. -/
def kwFlateDecode : List Nat := [70, 108, 97, 116, 101, 68, 101, 99, 111, 100, 101]

/-- Byte spelling of the name `ASCIIHexDecode`. -/
def kwASCIIHexDecode : List Nat :=
  [65, 83, 67, 73, 73, 72, 101, 120, 68, 101, 99, 111, 100, 101]

/-- Byte spelling of the name `ASCII85Decode`. -/
def kwASCII85Decode : List Nat :=
  [65, 83, 67, 73, 73, 56, 53, 68, 101, 99, 111, 100, 101]

/-- External codecs consumed by applyFilter, abstracted as parameters: the
theorems below hold for every behaviour of zlib and ascii85. -/
structure FilterEnv where
  flateDecode : List Nat → Except PErr (List Nat)
  ascii85Decode : List Nat → Except PErr (List Nat)

/-- Cleaning loop of asciiHexDecode (filter.go lines 80-89): stop at `>`,
drop whitespace. -/
def hexClean : List Nat → List Nat
  | [] => []
  | b :: rest =>
    if b == 62 then []
    else if isWhitespaceB b then hexClean rest
    else b :: hexClean rest

/-- Pairwise hex decoding, the behaviour of Go's `hex.Decode` on the
cleaned input. -/
def hexDecodePairs : List Nat → Except PErr (List Nat)
  | [] => .ok []
  | h1 :: h2 :: rest =>
    (match unhexB h1, unhexB h2 with
    | some a, some b =>
      (match hexDecodePairs rest with
       | .ok t => .ok ((a * 16 + b) :: t)
       | .error e => .error e)
    | _, _ => .error PErr.invalidHexChar)
  | _ :: [] => .error PErr.invalidHexChar

/-- asciiHexDecode from filter.go lines 78-102: clean, pad an odd length
with the digit `0`, decode pairwise. -/
def asciiHexDecode (data : List Nat) : Except PErr (List Nat) :=
  let src := hexClean data
  let src2 := if src.length % 2 ≠ 0 then src ++ [48] else src
  hexDecodePairs src2

/-- Model of `bytes.Index` scanning from position `i`. -/
def bytesIndexFrom (pat : List Nat) (l : List Nat) (i : Nat) : Option Nat :=
  if pat.isPrefixOf l then some i
  else
    match l with
    | [] => none
    | _ :: rest => bytesIndexFrom pat rest (i + 1)

/-- Model of Go `bytes.Index`: first occurrence of `pat` in `data`. -/
def bytesIndex (data pat : List Nat) : Option Nat := bytesIndexFrom pat data 0

/-- Trimming at the `~>` end marker in ascii85Decode (filter.go 105-110). -/
def ascii85Trim (data : List Nat) : List Nat :=
  match bytesIndex data [126, 62] with
  | some e => data.take e
  | none => data

/-- applyFilter from filter.go lines 49-60. -/
def applyFilter (env : FilterEnv) (name : List Nat) (data : List Nat) :
    Except PErr (List Nat) :=
  if name == kwFlateDecode then env.flateDecode data
  else if name == kwASCIIHexDecode then asciiHexDecode data
  else if name == kwASCII85Decode then env.ascii85Decode (ascii85Trim data)
  else .error PErr.unsupportedFilter

/-- Filter-name extraction of decodeStream (filter.go lines 22-36): a
single name, or an array that must contain only names. -/
def filterNames : Obj → Except PErr (List (List Nat))
  | Obj.name n => .ok [n]
  | Obj.arr items =>
    items.mapM (fun it =>
      match it with
      | Obj.name n => .ok n
      | _ => .error PErr.unexpectedChar)
  | _ => .error PErr.unexpectedChar

/-- decodeStream from filter.go lines 13-46: no `/Filter` passes the data
through, otherwise the filters are applied left to right. -/
def decodeStream (env : FilterEnv) (dict : List (List Nat × Obj)) (payload : List Nat) :
    Except PErr (List Nat) :=
  match dictGet dict kwFilter with
  | none => .ok payload
  | some f =>
    match filterNames f with
    | .error e => .error e
    | .ok names => names.foldlM (fun d n => applyFilter env n d) payload

/-- Accumulating loop of Page.ContentStream (page.go lines 32-43): each
decoded stream is appended followed by one LF, including after the last. -/
def contentStreamAux (env : FilterEnv)
    (contents : List (List (List Nat × Obj) × List Nat)) (acc : List Nat) :
    Except PErr (List Nat) :=
  match contents with
  | [] => .ok acc
  | s :: rest =>
    match decodeStream env s.1 s.2 with
    | .error e => .error e
    | .ok dec => contentStreamAux env rest (acc ++ dec ++ [10])

/-- Page.ContentStream from page.go lines 32-43. -/
def contentStream (env : FilterEnv)
    (contents : List (List (List Nat × Obj) × List Nat)) : Except PErr (List Nat) :=
  contentStreamAux env contents []

/-- Sequential decoding of every content stream of a page; the reference
list for stating what ContentStream returns. -/
def decodeAll (env : FilterEnv) :
    List (List (List Nat × Obj) × List Nat) → Except PErr (List (List Nat))
  | [] => .ok []
  | s :: rest =>
    match decodeStream env s.1 s.2 with
    | .error e => .error e
    | .ok dec =>
      (match decodeAll env rest with
       | .error e => .error e
       | .ok decs => .ok (dec :: decs))

theorem contentStreamAux_eq (env : FilterEnv)
    (contents : List (List (List Nat × Obj) × List Nat)) :
    ∀ acc : List Nat,
      contentStreamAux env contents acc =
        (decodeAll env contents).map
          (fun decs => acc ++ (decs.map (fun d => d ++ [10])).flatten) := by
  induction contents with
  | nil =>
    intro acc
    simp [contentStreamAux, decodeAll, Except.map]
  | cons s rest ih =>
    intro acc
    simp only [contentStreamAux, decodeAll]
    cases hdec : decodeStream env s.1 s.2 with
    | error e => simp [Except.map]
    | ok dec =>
      simp only [ih]
      cases hall : decodeAll env rest with
      | error e => simp [Except.map]
      | ok decs => simp [Except.map, List.append_assoc]

/-- C8 (amended): ContentStream returns the decoded payloads each followed
by one LF — a separator between consecutive streams and additionally one
trailing LF after the last; a page with no content streams yields empty
bytes, and a decoding failure propagates. -/
theorem contentStream_appends_newline (env : FilterEnv)
    (contents : List (List (List Nat × Obj) × List Nat)) :
    contentStream env contents =
      (decodeAll env contents).map
        (fun decs => (decs.map (fun d => d ++ [10])).flatten) := by
  rw [contentStream, contentStreamAux_eq]
  cases decodeAll env contents <;> simp [Except.map]

/-- Counterexample to C8 as stated: a page whose single content stream has
no filter and payload `q` yields `q` followed by LF, not the bare
separator-joined payloads (`intercalate`), which would be `q` alone. -/
theorem contentStream_trailing_counterexample :
    ¬ (∀ (env : FilterEnv) (contents : List (List (List Nat × Obj) × List Nat))
          (decs : List (List Nat)),
        decodeAll env contents = .ok decs →
        contentStream env contents = .ok (List.intercalate [10] decs)) := by
  intro h
  have h1 := h ⟨fun _ => .error PErr.unsupportedFilter, fun _ => .error PErr.unsupportedFilter⟩
    [([], [113])] [[113]] rfl
  have h2 : contentStream
      ⟨fun _ => .error PErr.unsupportedFilter, fun _ => .error PErr.unsupportedFilter⟩
      [([], [113])] = .ok [113, 10] := rfl
  rw [h2] at h1
  injection h1 with h1
  exact absurd h1 (by decide)

/-! ## Form editing (`form/field.go`, `form/flatten.go`)

`Fill` and `Flatten` call into the reader (`reader.ReadFrom`,
`Document.FormFields`); those calls are abstracted as function parameters
`readFrom` and `formFields` over an opaque document type, so the theorems
hold for every reader behaviour.  The byte-mutation helper
`setFieldValue` and the xref rebuild of `Fill` are likewise parameters —
claims C2 and C3 are about the control flow before any mutation, and
abstracting the mutators only strengthens them.  For `Flatten` the
space-replacement pipeline is translated directly, with the Go `regexp`
match finders abstracted as interval-producing parameters. -/

/-- Form-field tree from part_008 (`reader.FormField`), restricted to the
fields the form editors consult: partial name `/T`, fully qualified name,
field type and children. -/
inductive FormField where
  | mk (name fullName ftype : List Nat) (kids : List FormField)

/-- Partial name of a field. -/
def FormField.name : FormField → List Nat
  | .mk n _ _ _ => n

/-- Fully qualified name of a field. -/
def FormField.fullName : FormField → List Nat
  | .mk _ fn _ _ => fn

/-- Field type of a field. -/
def FormField.ftype : FormField → List Nat
  | .mk _ _ t _ => t

/-- Children of a field. -/
def FormField.kids : FormField → List FormField
  | .mk _ _ _ ks => ks

mutual

/-- One field of flattenFields: the field followed by its recursively
flattened kids. -/
def flattenOne : FormField → List FormField
  | FormField.mk n fn ft ks => FormField.mk n fn ft ks :: flattenFields ks

/-- flattenFields from field.go lines 353-362: every field followed by its
recursively flattened kids, in order. -/
def flattenFields : List FormField → List FormField
  | [] => []
  | f :: rest => flattenOne f ++ flattenFields rest

end

/-- Lookup in the `fieldMap` built by Fill: Go map assignment in iteration
order means the last field with a given full name wins. -/
def findByFullName (fields : List FormField) (key : List Nat) : Option FormField :=
  fields.reverse.find? (fun f => f.fullName == key)

/-- Fill from field.go lines 279-333.  An empty value map copies the input
through; otherwise the document is parsed, all named fields are validated
against the flattened field list, and only then is every value applied and
the xref rebuilt.  `values` is the map in one Go iteration order. -/
def Fill {Doc : Type} (readFrom : List Nat → Except PErr Doc)
    (formFields : Doc → Except PErr (List FormField))
    (setFieldValue : List Nat → FormField → List Nat → List Nat)
    (rebuildXref : List Nat → List Nat)
    (data : List Nat) (values : List (List Nat × List Nat)) : Except PErr (List Nat) :=
  if values.isEmpty then .ok data
  else
    match readFrom data with
    | .error e => .error e
    | .ok doc =>
      match formFields doc with
      | .error e => .error e
      | .ok fields =>
        if fields.isEmpty then .error PErr.noFormFields
        else
          let allFields := flattenFields fields
          if values.all (fun kv => (findByFullName allFields kv.1).isSome) then
            .ok (rebuildXref (values.foldl
              (fun d kv =>
                match findByFullName allFields kv.1 with
                | some f => setFieldValue d f kv.2
                | none => d) data))
          else .error PErr.fieldNotFound

/-- Space replacement over the index interval `[start, stop)`, the loop
`for i := loc[0]; i < loc[1]; i++ { data[i] = ' ' }`. -/
def spaceFillRangeAux : List Nat → Nat → Nat → Nat → List Nat
  | [], _, _, _ => []
  | b :: rest, i, start, stop =>
    (if start ≤ i ∧ i < stop then 32 else b) :: spaceFillRangeAux rest (i + 1) start stop

/-- Space replacement over one interval of the whole buffer. -/
def spaceFillRange (data : List Nat) (start stop : Nat) : List Nat :=
  spaceFillRangeAux data 0 start stop

/-- blankPattern from flatten.go lines 167-174, with the regexp match list
given by an abstract finder: every reported interval is space-filled. -/
def spaceFillIntervals (s : List Nat) (locs : List (Nat × Nat)) : List Nat :=
  locs.foldl (fun cur loc => spaceFillRange cur loc.1 loc.2) s

/-- Four sequential blankPattern passes of blankFieldMarkers (flatten.go
lines 150-160); each finder abstracts one of the Go regular expressions. -/
def blankSub (finders : List (List Nat → List (Nat × Nat))) (sub : List Nat) : List Nat :=
  finders.foldl (fun s f => spaceFillIntervals s (f s)) sub

/-- escapePDFString from field.go lines 256-261: backslash doubled, both
parentheses backslash-escaped. -/
def escapePDFString (s : List Nat) : List Nat :=
  (s.map (fun b =>
    if b == 92 then [92, 92]
    else if b == 40 then [92, 40]
    else if b == 41 then [92, 41]
    else [b])).flatten

/-- Backward scan of findDictStart (field.go lines 532-546), fuel-indexed
with fuel at least the start index so it is never exhausted. -/
def findDictStartAux (data : List Nat) : Nat → Nat → Nat → Option Nat
  | _, _, 0 => none
  | i, depth, fuel + 1 =>
    if i = 0 then none
    else
      let depth2 :=
        if i + 1 < data.length ∧ data.getD i 0 == 62 ∧ data.getD (i + 1) 0 == 62 then
          depth + 1
        else depth
      if data.getD i 0 == 60 && data.getD (i - 1) 0 == 60 then
        (if depth2 = 0 then some (i - 1)
         else findDictStartAux data (i - 1) (depth2 - 1) fuel)
      else findDictStartAux data (i - 1) depth2 fuel

/-- findDictStart from field.go: nearest enclosing `<<` before `pos`. -/
def findDictStart (data : List Nat) (pos : Nat) : Option Nat :=
  findDictStartAux data (pos - 1) 0 (pos + 1)

/-- Forward scan of findDictEnd (field.go lines 549-566). -/
def findDictEndAux (data : List Nat) : Nat → Nat → Nat → Option Nat
  | _, _, 0 => none
  | i, depth, fuel + 1 =>
    if i + 1 < data.length then
      if data.getD i 0 == 60 && data.getD (i + 1) 0 == 60 then
        findDictEndAux data (i + 2) (depth + 1) fuel
      else if data.getD i 0 == 62 && data.getD (i + 1) 0 == 62 then
        (if depth ≤ 1 then some i
         else findDictEndAux data (i + 2) (depth - 1) fuel)
      else findDictEndAux data (i + 1) depth fuel
    else none

/-- findDictEnd from field.go: matching `>>` at or after `pos`. -/
def findDictEnd (data : List Nat) (pos : Nat) : Option Nat :=
  findDictEndAux data pos 0 (data.length + 1)

/-- One field-dict blanking attempt of blankFieldMarkers: locate the
enclosing dictionary of the `/T` occurrence at `idx`, blank the four
marker patterns inside it, splice the result back; `none` when either
dictionary bound is missing (the Go `continue`). -/
def blankFieldAt (finders : List (List Nat → List (Nat × Nat)))
    (data : List Nat) (idx : Nat) : Option (List Nat) :=
  match findDictStart data idx, findDictEnd data idx with
  | some ds, some de =>
    let sub := (data.drop ds).take (de + 2 - ds)
    some (data.take ds ++ blankSub finders sub ++ data.drop (ds + sub.length))
  | _, _ => none

/-- blankFieldMarkers from flatten.go lines 129-164: try `/T (name)` then
`/T(name)`, process the first occurrence whose dictionary bounds resolve,
then stop. -/
def blankFieldMarkers (finders : List (List Nat → List (Nat × Nat)))
    (data : List Nat) (fname : List Nat) : List Nat :=
  let p1 := [47, 84, 32, 40] ++ escapePDFString fname ++ [41]
  let p2 := [47, 84, 40] ++ escapePDFString fname ++ [41]
  match bytesIndex data p1 with
  | some idx =>
    (match blankFieldAt finders data idx with
     | some d2 => d2
     | none =>
       match bytesIndex data p2 with
       | some idx2 => (blankFieldAt finders data idx2).getD data
       | none => data)
  | none =>
    match bytesIndex data p2 with
    | some idx2 => (blankFieldAt finders data idx2).getD data
    | none => data

/-- The literal bytes `/AcroForm`. -/
def kwAcroFormPat : List Nat := [47, 65, 99, 114, 111, 70, 111, 114, 109]

/-- Whitespace skip of blankAcroForm (flatten.go lines 81-84): space, LF
and CR only. -/
def skipSpacesFrom (data : List Nat) : Nat → Nat → Nat
  | pos, 0 => pos
  | pos, fuel + 1 =>
    if pos < data.length ∧
        (data.getD pos 0 == 32 || data.getD pos 0 == 10 || data.getD pos 0 == 13) then
      skipSpacesFrom data (pos + 1) fuel
    else pos

/-- Inline-dictionary end scan of blankAcroForm (flatten.go lines 88-107). -/
def dictEndScan (data : List Nat) : Nat → Nat → Nat → Option Nat
  | _, _, 0 => none
  | i, depth, fuel + 1 =>
    if i + 1 < data.length ∧ 0 < depth then
      if data.getD i 0 == 60 && data.getD (i + 1) 0 == 60 then
        dictEndScan data (i + 2) (depth + 1) fuel
      else if data.getD i 0 == 62 && data.getD (i + 1) 0 == 62 then
        (if depth = 1 then some (i + 2)
         else dictEndScan data (i + 2) (depth - 1) fuel)
      else dictEndScan data (i + 1) depth fuel
    else none

/-- Regex-space class of Go's RE2 `\s`: tab, LF, FF, CR, space. -/
def isRegexSpace (b : Nat) : Bool :=
  b == 9 || b == 10 || b == 12 || b == 13 || b == 32

/-- Length of a prefix match of the pattern `\d+\s+\d+\s+R` (flatten.go
line 110); the character classes are disjoint, so the leftmost RE2 match
starting at position 0 exists exactly when this maximal-run parse
succeeds. -/
def refTailLen (l : List Nat) : Option Nat :=
  let d1 := l.takeWhile isDigitB
  let r1 := l.dropWhile isDigitB
  let w1 := r1.takeWhile isRegexSpace
  let r2 := r1.dropWhile isRegexSpace
  let d2 := r2.takeWhile isDigitB
  let r3 := r2.dropWhile isDigitB
  let w2 := r3.takeWhile isRegexSpace
  let r4 := r3.dropWhile isRegexSpace
  if d1.isEmpty || w1.isEmpty || d2.isEmpty || w2.isEmpty then none
  else
    match r4 with
    | 82 :: _ => some (d1.length + w1.length + d2.length + w2.length + 1)
    | _ => none

/-- blankAcroForm from flatten.go lines 74-125: find `/AcroForm`, skip
spaces, measure the inline dictionary or the `N G R` reference tail, and
space-fill the whole range; on any failure the buffer is unchanged. -/
def blankAcroForm (data : List Nat) : List Nat :=
  match bytesIndex data kwAcroFormPat with
  | none => data
  | some acroStart =>
    let pos := skipSpacesFrom data (acroStart + 9) (data.length + 1)
    let acroEnd : Nat :=
      if pos + 1 < data.length ∧ data.getD pos 0 == 60 ∧ data.getD (pos + 1) 0 == 60 then
        (match dictEndScan data (pos + 2) 1 (data.length + 1) with
         | some e => e
         | none => 0)
      else
        (match refTailLen (data.drop pos) with
         | some len2 => pos + len2
         | none => 0)
    if acroEnd ≤ acroStart then data
    else spaceFillRange data acroStart acroEnd

/-- Flatten from flatten.go lines 18-53: a form-free document is copied
through unchanged; otherwise `/AcroForm` and the per-field interactive
markers are space-replaced on a copy of the buffer. -/
def Flatten {Doc : Type} (readFrom : List Nat → Except PErr Doc)
    (formFields : Doc → Except PErr (List FormField))
    (finders : List (List Nat → List (Nat × Nat)))
    (data : List Nat) : Except PErr (List Nat) :=
  match readFrom data with
  | .error e => .error e
  | .ok doc =>
    match formFields doc with
    | .error e => .error e
    | .ok fields =>
      if fields.isEmpty then .ok data
      else
        let m1 := blankAcroForm data
        .ok ((flattenFields fields).foldl
          (fun d f => blankFieldMarkers finders d f.name) m1)

/-- Byte relation of the flatten pipeline: a byte of the output is the
original byte or an ASCII space written over it. -/
def spaceRel (orig out : Nat) : Prop := out = orig ∨ out = 32

/-- Frame relation: the output has the length of the input and differs
only by space writes. -/
def spacedOnly (orig out : List Nat) : Prop := List.Forall₂ spaceRel orig out

theorem spacedOnly_refl (l : List Nat) : spacedOnly l l :=
  List.forall₂_same.mpr fun _ _ => Or.inl rfl

theorem spacedOnly_trans {a b c : List Nat} (h1 : spacedOnly a b) (h2 : spacedOnly b c) :
    spacedOnly a c := by
  induction h1 generalizing c with
  | nil => cases h2; exact List.Forall₂.nil
  | cons hr hrest ih =>
    cases h2 with
    | cons hr2 hrest2 =>
      refine List.Forall₂.cons ?_ (ih hrest2)
      rcases hr2 with h | h
      · rw [h]; exact hr
      · exact Or.inr h

theorem spacedOnly_getD {a b : List Nat} (h : spacedOnly a b) :
    b.length = a.length ∧
      ∀ i, i < a.length → b.getD i 0 = a.getD i 0 ∨ b.getD i 0 = 32 := by
  induction h with
  | nil => exact ⟨rfl, fun i hi => absurd hi (by simp)⟩
  | @cons x y l1 l2 hr hrest ih =>
    refine ⟨by simp [ih.1], ?_⟩
    intro i hi
    cases i with
    | zero => simpa [List.getD] using hr
    | succ j => exact ih.2 j (by simpa using hi)

theorem spaceFillRangeAux_spaced (l : List Nat) :
    ∀ i s e, spacedOnly l (spaceFillRangeAux l i s e) := by
  induction l with
  | nil => intro i s e; exact List.Forall₂.nil
  | cons b rest ih =>
    intro i s e
    simp only [spaceFillRangeAux]
    refine List.Forall₂.cons ?_ (ih (i + 1) s e)
    split
    · exact Or.inr rfl
    · exact Or.inl rfl

theorem spaceFillRange_spaced (data : List Nat) (s e : Nat) :
    spacedOnly data (spaceFillRange data s e) :=
  spaceFillRangeAux_spaced data 0 s e

theorem spaceFillIntervals_spaced (locs : List (Nat × Nat)) :
    ∀ s : List Nat, spacedOnly s (spaceFillIntervals s locs) := by
  induction locs with
  | nil => intro s; exact spacedOnly_refl s
  | cons loc rest ih =>
    intro s
    exact spacedOnly_trans (spaceFillRange_spaced s loc.1 loc.2) (ih _)

theorem blankSub_spaced (finders : List (List Nat → List (Nat × Nat))) :
    ∀ sub : List Nat, spacedOnly sub (blankSub finders sub) := by
  induction finders with
  | nil => intro sub; exact spacedOnly_refl sub
  | cons f rest ih =>
    intro sub
    exact spacedOnly_trans (spaceFillIntervals_spaced (f sub) sub) (ih _)

theorem splice_decomp (data : List Nat) (ds n : Nat) :
    data = data.take ds ++ ((data.drop ds).take n ++
      data.drop (ds + ((data.drop ds).take n).length)) := by
  conv_lhs => rw [← List.take_append_drop ds data]
  congr 1
  rw [List.length_take]
  have hd : data.drop (ds + min n (data.drop ds).length) =
      (data.drop ds).drop (min n (data.drop ds).length) := by
    rw [List.drop_drop, Nat.add_comm]
  rw [hd]
  rcases Nat.le_total n (data.drop ds).length with h | h
  · rw [min_eq_left h, List.take_append_drop]
  · rw [min_eq_right h, List.drop_length, List.take_of_length_le h, List.append_nil]

theorem blankFieldAt_spaced (finders : List (List Nat → List (Nat × Nat)))
    (data : List Nat) (idx : Nat) (out : List Nat)
    (h : blankFieldAt finders data idx = some out) : spacedOnly data out := by
  rw [blankFieldAt] at h
  cases hds : findDictStart data idx with
  | none => rw [hds] at h; cases h
  | some ds =>
    cases hde : findDictEnd data idx with
    | none => rw [hds, hde] at h; cases h
    | some de =>
      rw [hds, hde] at h
      injection h with h
      rw [← h]
      conv_lhs => rw [splice_decomp data ds (de + 2 - ds)]
      rw [List.append_assoc]
      exact List.rel_append (spacedOnly_refl _)
        (List.rel_append (blankSub_spaced finders _) (spacedOnly_refl _))

theorem blankFieldMarkers_spaced (finders : List (List Nat → List (Nat × Nat)))
    (data fname : List Nat) : spacedOnly data (blankFieldMarkers finders data fname) := by
  rw [blankFieldMarkers]
  cases h1 : bytesIndex data ([47, 84, 32, 40] ++ escapePDFString fname ++ [41]) with
  | some idx =>
    cases h2 : blankFieldAt finders data idx with
    | some d2 =>
      simp only [h2]
      exact blankFieldAt_spaced finders data idx d2 h2
    | none =>
      simp only [h2]
      cases h3 : bytesIndex data ([47, 84, 40] ++ escapePDFString fname ++ [41]) with
      | some idx2 =>
        cases h4 : blankFieldAt finders data idx2 with
        | some d4 =>
          simp only [h4, Option.getD]
          exact blankFieldAt_spaced finders data idx2 d4 h4
        | none =>
          simp only [h4, Option.getD]
          exact spacedOnly_refl data
      | none => exact spacedOnly_refl data
  | none =>
    cases h3 : bytesIndex data ([47, 84, 40] ++ escapePDFString fname ++ [41]) with
    | some idx2 =>
      cases h4 : blankFieldAt finders data idx2 with
      | some d4 =>
        simp only [h4, Option.getD]
        exact blankFieldAt_spaced finders data idx2 d4 h4
      | none =>
        simp only [h4, Option.getD]
        exact spacedOnly_refl data
    | none => exact spacedOnly_refl data

theorem blankAcroForm_spaced (data : List Nat) : spacedOnly data (blankAcroForm data) := by
  rw [blankAcroForm]
  cases bytesIndex data kwAcroFormPat with
  | none => exact spacedOnly_refl data
  | some acroStart =>
    simp only
    split <;> split <;>
      first
        | exact spacedOnly_refl data
        | exact spaceFillRange_spaced data _ _

theorem foldl_blankFieldMarkers_spaced (finders : List (List Nat → List (Nat × Nat)))
    (fields : List FormField) :
    ∀ m : List Nat,
      spacedOnly m (fields.foldl (fun d f => blankFieldMarkers finders d f.name) m) := by
  induction fields with
  | nil => intro m; exact spacedOnly_refl m
  | cons f rest ih =>
    intro m
    exact spacedOnly_trans (blankFieldMarkers_spaced finders m f.name) (ih _)

/-- C2: when some key of the value map is not the fully qualified name of
any form field of the document, Fill fails with an error, and its result
does not depend on the byte-mutation helpers at all — validation of every
named field completes before the first mutation, so nothing is written and
the working buffer is untouched. -/
theorem fill_unknown_field_fails {Doc : Type}
    (readFrom : List Nat → Except PErr Doc)
    (formFields : Doc → Except PErr (List FormField))
    (setFieldValue : List Nat → FormField → List Nat → List Nat)
    (rebuildXref : List Nat → List Nat)
    (data : List Nat) (values : List (List Nat × List Nat)) (key : List Nat × List Nat)
    (hmem : key ∈ values)
    (hmiss : ∀ doc fields, readFrom data = .ok doc → formFields doc = .ok fields →
      findByFullName (flattenFields fields) key.1 = none) :
    (∃ e, Fill readFrom formFields setFieldValue rebuildXref data values = .error e) ∧
    ∀ (sfv2 : List Nat → FormField → List Nat → List Nat) (rbx2 : List Nat → List Nat),
      Fill readFrom formFields setFieldValue rebuildXref data values =
        Fill readFrom formFields sfv2 rbx2 data values := by
  have hne : values.isEmpty = false := by
    cases values with
    | nil => cases hmem
    | cons v vs => rfl
  have main : ∃ e, ∀ (sfv : List Nat → FormField → List Nat → List Nat)
      (rbx : List Nat → List Nat),
      Fill readFrom formFields sfv rbx data values = .error e := by
    cases hdoc : readFrom data with
    | error e => exact ⟨e, fun sfv rbx => by simp [Fill, hne, hdoc]⟩
    | ok doc =>
      cases hff : formFields doc with
      | error e => exact ⟨e, fun sfv rbx => by simp [Fill, hne, hdoc, hff]⟩
      | ok fields =>
        by_cases hfe : fields.isEmpty
        · exact ⟨PErr.noFormFields, fun sfv rbx => by simp [Fill, hne, hdoc, hff, hfe]⟩
        · have hkey := hmiss doc fields hdoc hff
          have hall : values.all
              (fun kv => (findByFullName (flattenFields fields) kv.1).isSome) = false := by
            rw [Bool.eq_false_iff]
            intro h
            have := List.all_eq_true.mp h key hmem
            rw [hkey] at this
            simp at this
          exact ⟨PErr.fieldNotFound,
            fun sfv rbx => by simp [Fill, hne, hdoc, hff, hfe, hall]⟩
  obtain ⟨e, he⟩ := main
  exact ⟨⟨e, he setFieldValue rebuildXref⟩,
    fun sfv2 rbx2 => (he setFieldValue rebuildXref).trans (he sfv2 rbx2).symm⟩

/-- Witness document bytes for the form claims: a single field dictionary
with partial name `a`. -/
def wFlatData : List Nat := [60, 60, 47, 84, 32, 40, 97, 41, 62, 62]

/-- Witness form field named `a`. -/
def wField : FormField := FormField.mk [97] [97] [] []

/-- Witness for C2: with the single field `a` and the unknown key `b`
(byte 98), Fill fails with FieldNotFound and the result does not depend on
the mutation helpers. -/
theorem fill_unknown_field_fails_witness :
    Fill (fun _ : List Nat => Except.ok ()) (fun _ : Unit => Except.ok [wField])
        (fun d _ _ => d) (fun d => d) wFlatData [([98], [99])] =
      Fill (fun _ : List Nat => Except.ok ()) (fun _ : Unit => Except.ok [wField])
        (fun d _ v => v ++ d) (fun d => 0 :: d) wFlatData [([98], [99])] ∧
    Fill (fun _ : List Nat => Except.ok ()) (fun _ : Unit => Except.ok [wField])
        (fun d _ _ => d) (fun d => d) wFlatData [([98], [99])] =
      .error PErr.fieldNotFound := by
  constructor
  · exact (fill_unknown_field_fails (fun _ : List Nat => Except.ok ())
      (fun _ : Unit => Except.ok [wField]) (fun d _ _ => d) (fun d => d)
      wFlatData [([98], [99])] ([98], [99]) (List.mem_singleton.mpr rfl)
      (by intro doc fields h1 h2; injection h2 with h2; rw [← h2]; rfl)).2
      (fun d _ v => v ++ d) (fun d => 0 :: d)
  · rfl

set_option linter.unusedVariables false in
/-- C3: Fill with an empty value map copies the input through byte-for-byte
(the parseability hypothesis mirrors the claim; the code short-circuits
before parsing). -/
theorem fill_empty_values_identity {Doc : Type}
    (readFrom : List Nat → Except PErr Doc)
    (formFields : Doc → Except PErr (List FormField))
    (setFieldValue : List Nat → FormField → List Nat → List Nat)
    (rebuildXref : List Nat → List Nat)
    (data : List Nat) (doc : Doc) (hparse : readFrom data = .ok doc) :
    Fill readFrom formFields setFieldValue rebuildXref data [] = .ok data := by
  simp [Fill]

/-- Witness for C3: the no-values Fill reproduces the witness buffer. -/
theorem fill_empty_values_identity_witness :
    ((fun _ : List Nat => (Except.ok () : Except PErr Unit)) wFlatData = Except.ok ()) ∧
    Fill (fun _ : List Nat => Except.ok ()) (fun _ : Unit => Except.ok [wField])
      (fun d _ _ => d) (fun d => d) wFlatData [] = .ok wFlatData :=
  ⟨rfl, fill_empty_values_identity (fun _ : List Nat => Except.ok ())
    (fun _ : Unit => Except.ok [wField]) (fun d _ _ => d) (fun d => d) wFlatData () rfl⟩

set_option linter.unusedVariables false in
/-- C4: on a parseable document with form fields, Flatten preserves the
byte length exactly, and every output byte either equals the corresponding
input byte or is ASCII 0x20 — the space-replaced marker ranges are the
positions that differ, and they contain only spaces. -/
theorem flatten_space_replacement {Doc : Type}
    (readFrom : List Nat → Except PErr Doc)
    (formFields : Doc → Except PErr (List FormField))
    (finders : List (List Nat → List (Nat × Nat)))
    (data out : List Nat) (doc : Doc) (fields : List FormField)
    (hdoc : readFrom data = .ok doc) (hfields : formFields doc = .ok fields)
    (hne : fields ≠ [])
    (hout : Flatten readFrom formFields finders data = .ok out) :
    out.length = data.length ∧
      ∀ i, i < data.length → out.getD i 0 = data.getD i 0 ∨ out.getD i 0 = 32 := by
  have hspaced : spacedOnly data out := by
    simp only [Flatten, hdoc, hfields] at hout
    by_cases hfe : fields.isEmpty
    · rw [if_pos hfe] at hout
      injection hout with h
      rw [← h]
      exact spacedOnly_refl data
    · rw [if_neg hfe] at hout
      injection hout with h
      rw [← h]
      exact spacedOnly_trans (blankAcroForm_spaced data)
        (foldl_blankFieldMarkers_spaced finders (flattenFields fields) _)
  exact spacedOnly_getD hspaced

/-- Witness for C4: flattening the single-field witness document (with no
regexp matches reported) keeps the length and leaves byte 0 unchanged or
spaced. -/
theorem flatten_space_replacement_witness :
    (Flatten (fun _ : List Nat => Except.ok ()) (fun _ : Unit => Except.ok [wField])
        [] wFlatData = Except.ok wFlatData) ∧
    wFlatData.length = wFlatData.length ∧
    (wFlatData.getD 0 0 = wFlatData.getD 0 0 ∨ wFlatData.getD 0 0 = 32) := by
  have h := flatten_space_replacement (fun _ : List Nat => Except.ok ())
    (fun _ : Unit => Except.ok [wField]) [] wFlatData wFlatData () [wField]
    rfl rfl (by simp) rfl
  exact ⟨rfl, h.1, h.2 0 (by decide)⟩

/-- C10: on a parseable document whose FormFields sequence is empty,
Flatten copies the input through byte-for-byte instead of failing. -/
theorem flatten_no_fields_identity {Doc : Type}
    (readFrom : List Nat → Except PErr Doc)
    (formFields : Doc → Except PErr (List FormField))
    (finders : List (List Nat → List (Nat × Nat)))
    (data : List Nat) (doc : Doc)
    (hdoc : readFrom data = .ok doc) (hfields : formFields doc = .ok []) :
    Flatten readFrom formFields finders data = .ok data := by
  simp [Flatten, hdoc, hfields]

/-- Witness for C10: flattening the witness buffer with no form fields
reproduces it unchanged. -/
theorem flatten_no_fields_identity_witness :
    ((fun _ : List Nat => (Except.ok () : Except PErr Unit)) wFlatData = Except.ok ()) ∧
    ((fun _ : Unit => (Except.ok [] : Except PErr (List FormField))) () =
      (Except.ok [] : Except PErr (List FormField))) ∧
    Flatten (fun _ : List Nat => Except.ok ())
      (fun _ : Unit => Except.ok ([] : List FormField)) [] wFlatData = .ok wFlatData :=
  ⟨rfl, rfl, flatten_no_fields_identity (fun _ : List Nat => Except.ok ())
    (fun _ : Unit => Except.ok ([] : List FormField)) [] wFlatData () rfl rfl⟩

end GofpdfSpec
